import Mathlib

/-!
Verification of the rango gateway bootstrap (cmd/rango/rango.go).

This file gives a shallow embedding of the admission front-end
(`token`, `authHandler`, the three route registrations), the key
loading (`getPublicKey`), the RBAC environment parsing
(`filterPrefixed`, `envToMatrix`, `getRBACConfig`), the ingest loop
body and the consumer-client options from `main`, and the exit-code
behaviour of `main`, and proves the stated properties about them.

Strings handled character-wise (the RBAC parsing) are modelled as
`List Char`; HTTP header names and values stay `String`.  Go header
keys are canonicalised by net/http on `Get`, `Set` and `Del` alike, so
a single exact key string models each header consistently.
-/

namespace Rango

/-! ### HTTP model

A request carries only what `rango.go` reads: its headers, modelled as
an association list from header name to value.  `http.Header.Get`
returns the empty string when the header is absent. -/

structure Request where
  headers : List (String × String)
deriving DecidableEq

def headerGet (hs : List (String × String)) (k : String) : String :=
  match hs with
  | [] => ""
  | (k₂, v) :: rest => if k₂ = k then v else headerGet rest k

/-- http.Header.Del: remove every value stored under the key. -/
def headerDel (hs : List (String × String)) (k : String) : List (String × String) :=
  hs.filter (fun p => p.1 ≠ k)

/-- http.Header.Set: replace whatever was stored under the key. -/
def headerSet (hs : List (String × String)) (k v : String) : List (String × String) :=
  (k, v) :: headerDel hs k

/-- Header view used by the wrapped handler: first stored value, if any. -/
def headerFind (hs : List (String × String)) (k : String) : Option String :=
  match hs with
  | [] => none
  | (k₂, v) :: rest => if k₂ = k then some v else headerFind rest k

/-- The Go constant `prefix = "Bearer "` of rango.go (renamed here). -/
def bearerPfx : String := "Bearer "

/-- `token(r)`: the Authorization header stripped of the Bearer marker,
or the empty string when the marker is missing. -/
def token (r : Request) : String :=
  let authHeader := headerGet r.headers "Authorization"
  if bearerPfx.isPrefixOf authHeader then authHeader.drop bearerPfx.length
  else ""

/-- Result of `auth.ParseAndValidate`: uid and role claims.  The
validator itself lives in pkg/auth, outside this file; it enters the
model as an abstract function from token strings to `Option Auth`,
`none` standing for a validation error. -/
structure Auth where
  uid : String
  role : String
deriving DecidableEq

/-- What `authHandler` does with a request: either it writes 401 and
stops (the wrapped handler is never invoked, so no Session is
created), or it invokes the wrapped handler on the rewritten request. -/
inductive HandlerOutcome where
  | unauthorized
  | invoked (r : Request)
deriving DecidableEq

/-- `authHandler` from rango.go.  `pv` abstracts
`auth.ParseAndValidate (token r) key` with the public key fixed. -/
def authHandler (pv : String → Option Auth) (mustAuth : Bool) (r : Request) :
    HandlerOutcome :=
  match pv (token r) with
  | none =>
    if mustAuth then .unauthorized
    else .invoked ⟨headerDel (headerDel r.headers "JwtUID") "JwtRole"⟩
  | some a =>
    .invoked ⟨headerSet (headerSet r.headers "JwtUID" a.uid) "JwtRole" a.role⟩

/-- The three route registrations of `main`: `/private` wraps the
websocket handler with `mustAuth = true`; `/public` and the catch-all
`/` wrap it with `mustAuth = false`.  (Go ServeMux: exact match on the
two non-slash-terminated patterns, `/` matches everything else.) -/
def serveRango (pv : String → Option Auth) (path : String) (r : Request) :
    HandlerOutcome :=
  if path = "/private" then authHandler pv true r
  else authHandler pv false r

/-! ### Lemmas on the header operations -/

theorem headerFind_headerDel_self (hs : List (String × String)) (k : String) :
    headerFind (headerDel hs k) k = none := by
  induction hs with
  | nil => rfl
  | cons p rest ih =>
    by_cases hp : p.1 = k
    · simpa [headerDel, headerFind, hp] using ih
    · simpa [headerDel, headerFind, hp] using ih

theorem headerFind_headerDel_ne (hs : List (String × String)) (k k₂ : String)
    (h : k₂ ≠ k) : headerFind (headerDel hs k) k₂ = headerFind hs k₂ := by
  induction hs with
  | nil => rfl
  | cons p rest ih =>
    have h₂ : ¬ (k = k₂) := fun hh => h hh.symm
    by_cases hp : p.1 = k
    · simpa [headerDel, headerFind, List.filter_cons, hp, h₂] using ih
    · by_cases hq : p.1 = k₂
      · simp [headerDel, headerFind, List.filter_cons, hp, hq, h]
      · simpa [headerDel, headerFind, List.filter_cons, hp, hq] using ih

theorem headerFind_headerSet_self (hs : List (String × String)) (k v : String) :
    headerFind (headerSet hs k v) k = some v := by
  simp [headerSet, headerFind]

theorem headerFind_headerSet_ne (hs : List (String × String)) (k v k₂ : String)
    (h : k₂ ≠ k) : headerFind (headerSet hs k v) k₂ = headerFind hs k₂ := by
  have : k ≠ k₂ := h.symm
  simp [headerSet, headerFind, this, headerFind_headerDel_ne hs k k₂ h]

theorem headerGet_headerDel_ne (hs : List (String × String)) (k k₂ : String)
    (h : k₂ ≠ k) : headerGet (headerDel hs k) k₂ = headerGet hs k₂ := by
  induction hs with
  | nil => rfl
  | cons p rest ih =>
    have h₂ : ¬ (k = k₂) := fun hh => h hh.symm
    by_cases hp : p.1 = k
    · simpa [headerDel, headerGet, List.filter_cons, hp, h₂] using ih
    · by_cases hq : p.1 = k₂
      · simp [headerDel, headerGet, List.filter_cons, hp, hq, h]
      · simpa [headerDel, headerGet, List.filter_cons, hp, hq] using ih

theorem headerGet_headerSet_ne (hs : List (String × String)) (k v k₂ : String)
    (h : k₂ ≠ k) : headerGet (headerSet hs k v) k₂ = headerGet hs k₂ := by
  have : k ≠ k₂ := h.symm
  simp [headerSet, headerGet, this, headerGet_headerDel_ne hs k k₂ h]

/-! ### Key loading

`getPublicKey` builds an `auth.KeyStore`, loads it either from the
`JWT_PUBLIC_KEY` environment value (when non-empty) or from the file
named by the `pubKey` flag, and then inspects it.  The two loaders live
in pkg/auth, outside this file; they enter the model as abstract
functions returning the resulting store together with the error value
the Go code discards.  The key type is an abstract parameter `K`. -/

structure KeyStore (K : Type) where
  PublicKey : Option K

/-- Default of the Go flag `pubKey` in rango.go. -/
def pubKeyFlagDefault : String := "config/rsa-key.pub"

/-- `getPublicKey` from rango.go.  `lfs` models
`KeyStore.LoadPublicKeyFromString`, `lff` models
`KeyStore.LoadPublicKeyFromFile`; each returns the loaded store and the
error value that the Go code drops on the floor.  The named return
`err` is never assigned, so the `if err != nil` branch compares against
its zero value. -/
def getPublicKey (K : Type) (lfs lff : String → KeyStore K × Option String)
    (jwtPublicKeyEnv pubKeyFlag : String) : Except String K :=
  let errVar : Option String := none
  let ks : KeyStore K :=
    if jwtPublicKeyEnv ≠ "" then (lfs jwtPublicKeyEnv).1
    else (lff pubKeyFlag).1
  match errVar with
  | some e => .error e
  | none =>
    match ks.PublicKey with
    | none => .error "failed"
    | some k => .ok k

/-- The check `getPublicKey` applies to whichever store was loaded. -/
def storeCheck (K : Type) (ks : KeyStore K) : Except String K :=
  match ks.PublicKey with
  | none => .error "failed"
  | some k => .ok k

theorem getPublicKey_eq_storeCheck (K : Type)
    (lfs lff : String → KeyStore K × Option String) (env p : String) :
    getPublicKey K lfs lff env p =
      storeCheck K (if env ≠ "" then (lfs env).1 else (lff p).1) := by
  by_cases h : env = "" <;> simp [getPublicKey, storeCheck, h]

/-! ### Startup and exit codes

`main` first runs `setupLogger`, which panics when the LOG_LEVEL
environment variable is set to a value `zerolog.ParseLevel` rejects —
an unrecovered panic that terminates the process with the Go runtime
status 2.  Past that, `main` returns plainly (process exit status 0)
after logging when `getPublicKey` fails (preceded by a 2 s sleep) and
when `kgo.NewClient` fails; it reaches `http.ListenAndServe`
otherwise, which blocks while serving and returns only with an error,
upon which `log.Fatal` terminates the process with status 1.  There is
no signal handling and no further exit path. -/

inductive ListenOutcome where
  | errored (e : String)
  | serves
deriving DecidableEq

/-- `setupLogger` from rango.go, reduced to its only externally visible
outcome: `some e` when it panics (LOG_LEVEL is set and parsing its
lowercased value fails), `none` when it returns after setting the
level (the parsed level, or debug when LOG_LEVEL is unset).
`zerolog.ParseLevel` is external and enters as the abstract `parse`. -/
def setupLoggerOutcome (L : Type) (logLevelEnv : Option String)
    (parse : String → Except String L) : Option String :=
  match logLevelEnv with
  | some v =>
    match parse (v.toLower) with
    | .error e => some e
    | .ok _ => none
  | none => none

/-- Exit code of `main` as a function of its fallible steps, in program
order: the `setupLogger` panic (status 2), then the key load, the
consumer creation and the listener.  `none` means the process keeps
serving and never exits on its own. -/
def mainExitCode (K C : Type) (loggerPanic : Option String)
    (pubKeyRes : Except String K) (clientRes : Except String C)
    (listen : ListenOutcome) : Option Nat :=
  match loggerPanic with
  | some _ => some 2
  | none =>
    match pubKeyRes with
    | .error _ => some 0
    | .ok _ =>
      match clientRes with
      | .error _ => some 0
      | .ok _ =>
        match listen with
        | .errored _ => some 1
        | .serves => none

/-! ### Ingest loop and consumer options

The goroutine in `main` loops forever: poll fetches, log each fetch
error, then for each record call `hub.ReceiveMsg` and then
`CommitRecords` on that record.  One iteration is modelled as the list
of externally visible actions it performs, in order.  The action
vocabulary includes `sleep` (for `time.Sleep`) so that the absence of
any wait between iterations is expressible; the loop body never emits
it.  Records are abstract (`Rec`). -/

inductive IngestAction (Rec : Type) where
  | logFetchError (i : Nat) (e : String)
  | receiveMsg (r : Rec)
  | commit (r : Rec)
  | sleep (ms : Nat)
deriving DecidableEq

/-- What one `PollFetches` result carries, as read by the loop body:
the fetch errors and the flattened records. -/
structure Fetches (Rec : Type) where
  errors : List String
  records : List Rec
deriving DecidableEq

/-- The `for i, fe := range fetches.Errors()` logging loop. -/
def errorActions (Rec : Type) (i : Nat) : List String → List (IngestAction Rec)
  | [] => []
  | e :: rest => .logFetchError i e :: errorActions Rec (i + 1) rest

/-- The `for _, r := range records` loop: hand to the Hub, then commit. -/
def recordActions (Rec : Type) : List Rec → List (IngestAction Rec)
  | [] => []
  | r :: rest => .receiveMsg r :: .commit r :: recordActions Rec rest

/-- Actions of one iteration of the ingest goroutine, in program order. -/
def ingestIteration (Rec : Type) (f : Fetches Rec) : List (IngestAction Rec) :=
  errorActions Rec 0 f.errors ++ recordActions Rec f.records

/-- One pass of the `for {}` loop: its actions, and whether the loop
continues (it always does: the body has no break or return). -/
def ingestLoopStep (Rec : Type) (f : Fetches Rec) :
    List (IngestAction Rec) × Bool :=
  (ingestIteration Rec f, true)

/-- Option list passed to `kgo.NewClient` in `main`. -/
inductive KgoOpt where
  | seedBrokers (brokers : List String)
  | consumerGroup (g : String)
  | consumeTopics (t : String)
  | disableAutoCommit
deriving DecidableEq

/-- The consumer-client options from `main`: seed brokers from
`KAFKA_BROKERS`, a per-instance random consumer group, the exchange
topic, and auto-commit disabled. -/
def rangoClientOpts (kafkaBrokers : List String) (group exName : String) :
    List KgoOpt :=
  [.seedBrokers kafkaBrokers, .consumerGroup group,
   .consumeTopics exName, .disableAutoCommit]

/-- Recogniser for the wait action, used to state that no backoff
happens. -/
def IngestAction.isSleep (Rec : Type) : IngestAction Rec → Bool
  | .sleep _ => true
  | _ => false

/-! ### RBAC environment parsing

`getRBACConfig`, `filterPrefixed` and `envToMatrix` work on the
`NAME=value` records of `os.Environ()`.  Strings are modelled as
`List Char` so that splitting admits induction.  The Go map becomes an
association list where assignment replaces any previous binding. -/

/-- Go `strings.Split s sep` for a one-character separator.  On the
empty string it yields one empty field, like Go. -/
def splitOnChar (c : Char) : List Char → List (List Char)
  | [] => [[]]
  | a :: rest =>
    if a = c then [] :: splitOnChar c rest
    else
      match splitOnChar c rest with
      | [] => [[a]]
      | s :: ss => (a :: s) :: ss

/-- Go `strings.ToLower` (ASCII fragment, which covers env names). -/
def lowerStr (s : List Char) : List Char :=
  s.map Char.toLower

/-- Go `strings.TrimPrefix s p`. -/
def trimPfx (s p : List Char) : List Char :=
  if p.isPrefixOf s then s.drop p.length else s

/-- The Access Matrix: role name to list of event-name patterns. -/
abbrev AccessMatrix := List (List Char × List (List Char))

/-- Go map read `matr[k]`, as an option. -/
def mapGet (m : AccessMatrix) (k : List Char) : Option (List (List Char)) :=
  match m with
  | [] => none
  | (k₂, v) :: rest => if k₂ = k then some v else mapGet rest k

/-- Go map write `matr[k] = v`: replaces any previous binding. -/
def mapSet (m : AccessMatrix) (k : List Char) (v : List (List Char)) :
    AccessMatrix :=
  (k, v) :: m.filter (fun p => p.1 ≠ k)

/-- The key the loop body of `envToMatrix` computes for one record:
`strings.ToLower (strings.TrimPrefix kv[0] trimP)` where
`kv = strings.Split rec "="`. -/
def entryKey (trimP rec : List Char) : List Char :=
  lowerStr (trimPfx ((splitOnChar '=' rec).headD []) trimP)

/-- The value the loop body of `envToMatrix` computes for one record:
`strings.Split kv[1] ","`.  (Go would panic on a record with no `=`;
records of `os.Environ()` always contain one, so the default here is
never reached on the inputs the program feeds in.) -/
def entryVal (rec : List Char) : List (List Char) :=
  splitOnChar ',' (((splitOnChar '=' rec).get? 1).getD [])

/-- The `for _, rec := range env` loop of `envToMatrix`, explicit in
the map being built. -/
def envToMatrixAux (trimP : List Char) (matr : AccessMatrix) :
    List (List Char) → AccessMatrix
  | [] => matr
  | rec :: rest =>
    envToMatrixAux trimP (mapSet matr (entryKey trimP rec) (entryVal rec)) rest

/-- `envToMatrix` from rango.go. -/
def envToMatrix (env : List (List Char)) (trimP : List Char) : AccessMatrix :=
  envToMatrixAux trimP [] env

/-- `filterPrefixed` from rango.go. -/
def filterPrefixed (p : List Char) (arr : List (List Char)) :
    List (List Char) :=
  arr.filter (fun rec => p.isPrefixOf rec)

/-- The environment marker `RANGO_RBAC_` used by `getRBACConfig`. -/
def rbacPfx : List Char := "RANGO_RBAC_".toList

/-- `getRBACConfig` from rango.go, as a function of the environment
record list that `os.Environ()` returns. -/
def getRBACConfig (envs : List (List Char)) : AccessMatrix :=
  envToMatrix (filterPrefixed rbacPfx envs) rbacPfx

/-- The binding that survives in the matrix for key `k`: the one from
the last record of the list whose computed key is `k`. -/
def lastMatch (trimP : List Char) (l : List (List Char)) (k : List Char) :
    Option (List (List Char)) :=
  match l with
  | [] => none
  | rec :: rest =>
    match lastMatch trimP rest k with
    | some v => some v
    | none => if entryKey trimP rec = k then some (entryVal rec) else none

/-! ### Lemmas on splitting and the matrix -/

theorem splitOnChar_ne_nil (c : Char) (s : List Char) :
    splitOnChar c s ≠ [] := by
  induction s with
  | nil => simp [splitOnChar]
  | cons a rest ih =>
    by_cases h : a = c
    · simp [splitOnChar, h]
    · cases hs : splitOnChar c rest with
      | nil => simp [splitOnChar, h, hs]
      | cons s ss => simp [splitOnChar, h, hs]

theorem splitOnChar_of_not_mem (c : Char) (s : List Char) (h : c ∉ s) :
    splitOnChar c s = [s] := by
  induction s with
  | nil => rfl
  | cons a rest ih =>
    have ha : ¬ a = c := fun hh => h (by simp [hh])
    have hrest : c ∉ rest := fun hh => h (by simp [hh])
    simp [splitOnChar, ha, ih hrest]

theorem splitOnChar_append (c : Char) (A B : List Char) (h : c ∉ A) :
    splitOnChar c (A ++ c :: B) = A :: splitOnChar c B := by
  induction A with
  | nil => simp [splitOnChar]
  | cons a rest ih =>
    have ha : ¬ a = c := fun hh => h (by simp [hh])
    have hrest : c ∉ rest := fun hh => h (by simp [hh])
    simp [splitOnChar, ha, ih hrest]

theorem splitOnChar_headD (c : Char) (s : List Char) :
    (splitOnChar c s).headD [] = s.takeWhile (fun a => a ≠ c) := by
  induction s with
  | nil => rfl
  | cons a rest ih =>
    by_cases h : a = c
    · simp [splitOnChar, List.takeWhile, h]
    · cases hs : splitOnChar c rest with
      | nil => exact absurd hs (splitOnChar_ne_nil c rest)
      | cons s ss =>
        simp [splitOnChar, List.takeWhile, h, hs]
        simpa [hs] using ih

theorem mapGet_eraseKey (m : AccessMatrix) (k k₂ : List Char) (h : k₂ ≠ k) :
    mapGet (m.filter (fun p => p.1 ≠ k)) k₂ = mapGet m k₂ := by
  induction m with
  | nil => rfl
  | cons p rest ih =>
    have h₂ : ¬ (k = k₂) := fun hh => h hh.symm
    by_cases hp : p.1 = k
    · simpa [mapGet, List.filter_cons, hp, h₂] using ih
    · by_cases hq : p.1 = k₂
      · simp [mapGet, List.filter_cons, hp, hq, h]
      · simpa [mapGet, List.filter_cons, hp, hq] using ih

theorem mapGet_mapSet (m : AccessMatrix) (k : List Char)
    (v : List (List Char)) (k₂ : List Char) :
    mapGet (mapSet m k v) k₂ = if k = k₂ then some v else mapGet m k₂ := by
  by_cases h : k = k₂
  · simp [mapSet, mapGet, h]
  · have h₂ : k₂ ≠ k := fun hh => h hh.symm
    rw [mapSet, mapGet, if_neg h, if_neg h]
    exact mapGet_eraseKey m k k₂ h₂

theorem mapGet_envToMatrixAux (trimP : List Char) (l : List (List Char))
    (m : AccessMatrix) (k : List Char) :
    mapGet (envToMatrixAux trimP m l) k =
      match lastMatch trimP l k with
      | some v => some v
      | none => mapGet m k := by
  induction l generalizing m with
  | nil => simp [envToMatrixAux, lastMatch]
  | cons rec₀ rest ih =>
    rw [envToMatrixAux, ih]
    cases hrest : lastMatch trimP rest k with
    | some v => simp [lastMatch, hrest]
    | none =>
      by_cases hk : entryKey trimP rec₀ = k
      · simp [lastMatch, hrest, hk, mapGet_mapSet]
      · simp [lastMatch, hrest, hk, mapGet_mapSet]

theorem lastMatch_of_forall_ne (trimP : List Char) (l : List (List Char))
    (k : List Char) (h : ∀ rec ∈ l, entryKey trimP rec ≠ k) :
    lastMatch trimP l k = none := by
  induction l with
  | nil => rfl
  | cons rec₀ rest ih =>
    have h₀ : entryKey trimP rec₀ ≠ k := h rec₀ (by simp)
    have hrest := ih fun rec hrec => h rec (by simp [hrec])
    simp [lastMatch, hrest, h₀]

theorem lastMatch_of_mem (trimP : List Char) (l : List (List Char))
    (rec : List Char) (hmem : rec ∈ l)
    (hdist : l.Pairwise (fun a b => entryKey trimP a ≠ entryKey trimP b)) :
    lastMatch trimP l (entryKey trimP rec) = some (entryVal rec) := by
  induction l with
  | nil => cases hmem
  | cons rec₀ rest ih =>
    rcases List.mem_cons.mp hmem with hhead | htail
    · subst hhead
      have hnone : lastMatch trimP rest (entryKey trimP rec) = none := by
        refine lastMatch_of_forall_ne trimP rest _ fun b hb hbad => ?_
        exact (List.pairwise_cons.mp hdist).1 b hb hbad.symm
      simp [lastMatch, hnone]
    · have := ih htail (List.pairwise_cons.mp hdist).2
      simp [lastMatch, this]

theorem trimPfx_append (p s : List Char) : trimPfx (p ++ s) p = s := by
  have h : p.isPrefixOf (p ++ s) = true :=
    List.isPrefixOf_iff_prefix.mpr (List.prefix_append p s)
  simp [trimPfx, h]

theorem entryKey_of_shape (p name V : List Char) (hp : '=' ∉ p)
    (hn : '=' ∉ name) :
    entryKey p (p ++ name ++ '=' :: V) = lowerStr name := by
  have hpn : '=' ∉ p ++ name := by
    intro hmem
    rcases List.mem_append.mp hmem with hmem | hmem
    · exact hp hmem
    · exact hn hmem
  rw [entryKey, splitOnChar_append '=' (p ++ name) V hpn]
  simp [trimPfx_append]

theorem entryVal_of_shape (p name V : List Char) (hp : '=' ∉ p)
    (hn : '=' ∉ name) :
    entryVal (p ++ name ++ '=' :: V) =
      splitOnChar ',' (V.takeWhile (fun a => a ≠ '=')) := by
  have hpn : '=' ∉ p ++ name := by
    intro hmem
    rcases List.mem_append.mp hmem with hmem | hmem
    · exact hp hmem
    · exact hn hmem
  rw [entryVal, splitOnChar_append '=' (p ++ name) V hpn]
  cases hs : splitOnChar '=' V with
  | nil => exact absurd hs (splitOnChar_ne_nil '=' V)
  | cons s ss =>
    have hhead : s = V.takeWhile (fun a => a ≠ '=') := by
      have hd := splitOnChar_headD '=' V
      rw [hs] at hd
      simpa using hd
    simp [List.get?, hs, hhead]

/-! ### Lemmas on the ingest loop actions -/

theorem recordActions_get (Rec : Type) (rs : List Rec) (k : Nat) (r : Rec)
    (h : rs.get? k = some r) :
    (recordActions Rec rs).get? (2 * k) = some (.receiveMsg r) ∧
    (recordActions Rec rs).get? (2 * k + 1) = some (.commit r) := by
  induction rs generalizing k with
  | nil => simp [List.get?] at h
  | cons x rest ih =>
    cases k with
    | zero =>
      have hx : x = r := by simpa [List.get?] using h
      subst hx
      simp [recordActions, List.get?]
    | succ k₂ =>
      have h₂ : rest.get? k₂ = some r := by simpa [List.get?] using h
      obtain ⟨ih₁, ih₂⟩ := ih k₂ h₂
      have e₁ : 2 * (k₂ + 1) = 2 * k₂ + 1 + 1 := by ring
      have e₂ : 2 * (k₂ + 1) + 1 = 2 * k₂ + 1 + 1 + 1 := by ring
      constructor
      · rw [e₁, recordActions]
        simpa [List.get?] using ih₁
      · rw [e₂, recordActions]
        simpa [List.get?] using ih₂

theorem get?_append_of_get? {α : Type} (l₁ l₂ : List α) (n : Nat) (a : α)
    (h : l₂.get? n = some a) :
    (l₁ ++ l₂).get? (l₁.length + n) = some a := by
  induction l₁ with
  | nil => simpa using h
  | cons x rest ih => simpa [List.get?, Nat.succ_add] using ih

theorem errorActions_mem (Rec : Type) (es : List String) (i k : Nat) (e : String)
    (h : es.get? k = some e) :
    IngestAction.logFetchError (i + k) e ∈ errorActions Rec i es := by
  induction es generalizing i k with
  | nil => simp [List.get?] at h
  | cons x rest ih =>
    cases k with
    | zero =>
      have hx : x = e := by simpa [List.get?] using h
      subst hx
      simp [errorActions]
    | succ k₂ =>
      have h₂ : rest.get? k₂ = some e := by simpa [List.get?] using h
      have e₁ : i + (k₂ + 1) = (i + 1) + k₂ := by omega
      rw [errorActions, e₁]
      exact List.mem_cons_of_mem _ (ih (i + 1) k₂ h₂)

theorem errorActions_no_sleep (Rec : Type) (es : List String) (i : Nat)
    (a : IngestAction Rec) (h : a ∈ errorActions Rec i es) :
    IngestAction.isSleep Rec a = false := by
  induction es generalizing i with
  | nil => simp [errorActions] at h
  | cons x rest ih =>
    rcases List.mem_cons.mp h with hx | hx
    · subst hx; rfl
    · exact ih (i + 1) hx

theorem recordActions_no_sleep (Rec : Type) (rs : List Rec)
    (a : IngestAction Rec) (h : a ∈ recordActions Rec rs) :
    IngestAction.isSleep Rec a = false := by
  induction rs with
  | nil => simp [recordActions] at h
  | cons r rest ih =>
    rcases List.mem_cons.mp h with hx | hx
    · subst hx; rfl
    · rcases List.mem_cons.mp hx with hy | hy
      · subst hy; rfl
      · exact ih hy

theorem lastMatch_some (trimP : List Char) (l : List (List Char))
    (k : List Char) (v : List (List Char))
    (h : lastMatch trimP l k = some v) :
    ∃ rec ∈ l, entryKey trimP rec = k ∧ entryVal rec = v := by
  induction l with
  | nil => simp [lastMatch] at h
  | cons rec₀ rest ih =>
    rw [lastMatch] at h
    cases hrest : lastMatch trimP rest k with
    | some w =>
      rw [hrest] at h
      simp at h
      subst h
      obtain ⟨rec, hrec, hk, hv⟩ := ih hrest
      exact ⟨rec, by simp [hrec], hk, hv⟩
    | none =>
      rw [hrest] at h
      by_cases hk : entryKey trimP rec₀ = k
      · refine ⟨rec₀, by simp, hk, ?_⟩
        simpa [hk] using h
      · simp [hk] at h

/-! ### Admission front-end: claims C1, C4, C8 -/

/-- The JwtUID and JwtRole values the wrapped handler can observe, or
`none` when it is never invoked. -/
def observedJwt : HandlerOutcome → Option (Option String × Option String)
  | .unauthorized => none
  | .invoked r => some (headerFind r.headers "JwtUID", headerFind r.headers "JwtRole")

theorem observedJwt_authHandler (pv : String → Option Auth) (b : Bool)
    (r : Request) :
    observedJwt (authHandler pv b r) =
      match pv (token r), b with
      | none, true => none
      | none, false => some (none, none)
      | some a, _ => some (some a.uid, some a.role) := by
  cases hv : pv (token r) with
  | none =>
    cases b with
    | true => simp [authHandler, hv, observedJwt]
    | false =>
      have h₁ : headerFind (headerDel (headerDel r.headers "JwtUID") "JwtRole")
          "JwtUID" = none := by
        rw [headerFind_headerDel_ne _ _ _ (by decide)]
        exact headerFind_headerDel_self _ _
      have h₂ : headerFind (headerDel (headerDel r.headers "JwtUID") "JwtRole")
          "JwtRole" = none := headerFind_headerDel_self _ _
      simp [authHandler, hv, observedJwt, h₁, h₂]
  | some a =>
    have h₁ : headerFind (headerSet (headerSet r.headers "JwtUID" a.uid)
        "JwtRole" a.role) "JwtUID" = some a.uid := by
      rw [headerFind_headerSet_ne _ _ _ _ (by decide)]
      exact headerFind_headerSet_self _ _ _
    have h₂ : headerFind (headerSet (headerSet r.headers "JwtUID" a.uid)
        "JwtRole" a.role) "JwtRole" = some a.role :=
      headerFind_headerSet_self _ _ _
    simp [authHandler, hv, observedJwt, h₁, h₂]

/-- Claim C1: an upgrade request to the `/private` endpoint whose
Authorization header does not yield a successfully validated token is
answered 401 and the wrapped WebSocket handler is never invoked, so no
Session is created. -/
theorem private_unauthenticated_gets_401 (pv : String → Option Auth)
    (r : Request) (h : pv (token r) = none) :
    serveRango pv "/private" r = HandlerOutcome.unauthorized ∧
    ∀ r₂, serveRango pv "/private" r ≠ HandlerOutcome.invoked r₂ := by
  have ha : authHandler pv true r = HandlerOutcome.unauthorized := by
    simp [authHandler, h]
  exact ⟨by simp [serveRango, ha], by intro r₂; simp [serveRango, ha]⟩

/-- Witness for C1: a concrete request with an invalid token on
`/private` is answered 401. -/
theorem private_unauthenticated_gets_401_witness :
    (fun _ => (none : Option Auth)) (token ⟨[("Authorization", "Bearer abc")]⟩)
      = none ∧
    serveRango (fun _ => none) "/private" ⟨[("Authorization", "Bearer abc")]⟩
      = HandlerOutcome.unauthorized :=
  ⟨rfl,
   (private_unauthenticated_gets_401 (fun _ => none)
      ⟨[("Authorization", "Bearer abc")]⟩ rfl).1⟩

/-- Claim C4: on every endpoint other than `/private` (so `/public` and
the catch-all `/`), a request whose token fails validation still
reaches the WebSocket handler, with the JwtUID and JwtRole headers
cleared rather than set; and an Authorization header that does not
start with the Bearer marker yields the empty token. -/
theorem optional_auth_downgrades_to_anonymous (pv : String → Option Auth)
    (r : Request) (h : pv (token r) = none) :
    (∀ path, path ≠ "/private" →
        serveRango pv path r = HandlerOutcome.invoked
          ⟨headerDel (headerDel r.headers "JwtUID") "JwtRole"⟩) ∧
    headerFind (headerDel (headerDel r.headers "JwtUID") "JwtRole") "JwtUID"
      = none ∧
    headerFind (headerDel (headerDel r.headers "JwtUID") "JwtRole") "JwtRole"
      = none ∧
    (bearerPfx.isPrefixOf (headerGet r.headers "Authorization") = false →
        token r = "") := by
  refine ⟨?_, ?_, headerFind_headerDel_self _ _, ?_⟩
  · intro path hp
    simp [serveRango, hp, authHandler, h]
  · rw [headerFind_headerDel_ne _ _ _ (by decide)]
    exact headerFind_headerDel_self _ _
  · intro hb
    simp [token, hb]

/-- Witness for C4: a concrete anonymous request reaches the handler on
`/public`, with a client-supplied JwtUID header removed. -/
theorem optional_auth_downgrades_to_anonymous_witness :
    (fun _ => (none : Option Auth)) (token ⟨[("JwtUID", "spoof")]⟩) = none ∧
    serveRango (fun _ => none) "/public" ⟨[("JwtUID", "spoof")]⟩
      = HandlerOutcome.invoked ⟨[]⟩ := by
  constructor
  · rfl
  · have h := (optional_auth_downgrades_to_anonymous (fun _ => none)
        ⟨[("JwtUID", "spoof")]⟩ rfl).1 "/public" (by decide)
    exact h

/-- Sample validator for witnesses: accepts exactly the token string
"good". -/
def pvSample : String → Option Auth :=
  fun t => if t = "good" then some ⟨"u1", "admin"⟩ else none

/-- Claim C8: the JwtUID and JwtRole values the wrapped handler
observes are a function of the Authorization header alone — two
requests with the same Authorization header yield the same values, and
client-supplied JwtUID or JwtRole headers never reach the handler. -/
theorem jwt_headers_determined_by_authorization (pv : String → Option Auth)
    (b : Bool) (r₁ r₂ : Request)
    (h : headerGet r₁.headers "Authorization"
        = headerGet r₂.headers "Authorization") :
    observedJwt (authHandler pv b r₁) = observedJwt (authHandler pv b r₂) ∧
    ∀ (r : Request) (u v : String),
      observedJwt (authHandler pv b
          ⟨headerSet (headerSet r.headers "JwtUID" u) "JwtRole" v⟩)
        = observedJwt (authHandler pv b r) := by
  have htok : ∀ (s₁ s₂ : Request),
      headerGet s₁.headers "Authorization" = headerGet s₂.headers "Authorization" →
      token s₁ = token s₂ := by
    intro s₁ s₂ hs
    simp [token, hs]
  constructor
  · rw [observedJwt_authHandler, observedJwt_authHandler, htok r₁ r₂ h]
  · intro r u v
    have hAuth : headerGet (headerSet (headerSet r.headers "JwtUID" u)
        "JwtRole" v) "Authorization" = headerGet r.headers "Authorization" := by
      rw [headerGet_headerSet_ne _ _ _ _ (by decide),
        headerGet_headerSet_ne _ _ _ _ (by decide)]
    rw [observedJwt_authHandler, observedJwt_authHandler,
      htok ⟨headerSet (headerSet r.headers "JwtUID" u) "JwtRole" v⟩ r hAuth]

/-- Witness for C8: a request that smuggles a JwtUID header observes
the same JwtUID and JwtRole as one that does not. -/
theorem jwt_headers_determined_by_authorization_witness :
    headerGet [("Authorization", "Bearer good"), ("JwtUID", "evil")]
        "Authorization"
      = headerGet [("Authorization", "Bearer good")] "Authorization" ∧
    observedJwt (authHandler pvSample true
        ⟨[("Authorization", "Bearer good"), ("JwtUID", "evil")]⟩)
      = observedJwt (authHandler pvSample true
        ⟨[("Authorization", "Bearer good")]⟩) :=
  ⟨rfl,
   (jwt_headers_determined_by_authorization pvSample true
      ⟨[("Authorization", "Bearer good"), ("JwtUID", "evil")]⟩
      ⟨[("Authorization", "Bearer good")]⟩ rfl).1⟩

/-! ### Key loading and startup: claims C7, C9, C2 -/

theorem storeCheck_error_iff (K : Type) (ks : KeyStore K) :
    (∃ e, storeCheck K ks = Except.error e) ↔ ks.PublicKey = none := by
  cases hk : ks.PublicKey <;> simp [storeCheck, hk]

theorem storeCheck_error_val (K : Type) (ks : KeyStore K) (e : String)
    (h : storeCheck K ks = Except.error e) : e = "failed" := by
  cases hk : ks.PublicKey with
  | none =>
    simp [storeCheck, hk] at h
    exact h.symm
  | some k => simp [storeCheck, hk] at h

/-- Claim C7: a non-empty JWT_PUBLIC_KEY value makes `getPublicKey`
load the key from the inline PEM string, ignoring the file loader and
the flag path entirely; only an empty value falls back to the file
named by the key-file flag, whose default is config/rsa-key.pub. -/
theorem jwt_public_key_env_preferred (K : Type)
    (lfs lff lff₂ : String → KeyStore K × Option String) (env p p₂ : String)
    (h : env ≠ "") :
    getPublicKey K lfs lff env p = storeCheck K (lfs env).1 ∧
    getPublicKey K lfs lff env p = getPublicKey K lfs lff₂ env p₂ ∧
    (∀ q, getPublicKey K lfs lff "" q = storeCheck K (lff q).1) ∧
    pubKeyFlagDefault = "config/rsa-key.pub" := by
  refine ⟨?_, ?_, ?_, rfl⟩
  · rw [getPublicKey_eq_storeCheck, if_pos h]
  · rw [getPublicKey_eq_storeCheck, getPublicKey_eq_storeCheck,
      if_pos h, if_pos h]
  · intro q
    rw [getPublicKey_eq_storeCheck, if_neg (by simp)]

/-- Witness for C7: with a non-empty inline key the string loader
decides the result. -/
theorem jwt_public_key_env_preferred_witness :
    ("PEM" : String) ≠ "" ∧
    getPublicKey Unit (fun _ => (⟨some ()⟩, none)) (fun _ => (⟨none⟩, none))
        "PEM" "a" = storeCheck Unit ⟨some ()⟩ :=
  ⟨by decide,
   (jwt_public_key_env_preferred Unit (fun _ => (⟨some ()⟩, none))
      (fun _ => (⟨none⟩, none)) (fun _ => (⟨some ()⟩, some "ignored"))
      "PEM" "a" "b" (by decide)).1⟩

/-- Claim C9: `getPublicKey` returns an error iff the loaded store has
a nil PublicKey; the error values the two loaders return are discarded
(the local err variable is never assigned, making its check dead), so
every failure surfaces as the generic "failed" error. -/
theorem getPublicKey_error_flow (K : Type) (f g : String → KeyStore K)
    (ef eg ef₂ eg₂ : String → Option String) (env p : String) :
    getPublicKey K (fun s => (f s, ef s)) (fun s => (g s, eg s)) env p
      = getPublicKey K (fun s => (f s, ef₂ s)) (fun s => (g s, eg₂ s)) env p ∧
    ((∃ e, getPublicKey K (fun s => (f s, ef s)) (fun s => (g s, eg s)) env p
        = Except.error e) ↔
      (if env ≠ "" then f env else g p).PublicKey = none) ∧
    ∀ e, getPublicKey K (fun s => (f s, ef s)) (fun s => (g s, eg s)) env p
        = Except.error e → e = "failed" := by
  have hsc : getPublicKey K (fun s => (f s, ef s)) (fun s => (g s, eg s)) env p
      = storeCheck K (if env ≠ "" then f env else g p) := by
    rw [getPublicKey_eq_storeCheck]
  refine ⟨?_, ?_, ?_⟩
  · rw [hsc, getPublicKey_eq_storeCheck]
  · rw [hsc]
    exact storeCheck_error_iff K _
  · intro e he
    rw [hsc] at he
    exact storeCheck_error_val K _ e he

/-- Witness for C9: a loader that reports a PEM parse error still
yields only the generic "failed" error. -/
theorem getPublicKey_error_flow_witness :
    getPublicKey Unit (fun s => ((fun _ => (⟨none⟩ : KeyStore Unit)) s,
        (fun _ => some "pem parse error") s))
      (fun s => ((fun _ => (⟨none⟩ : KeyStore Unit)) s, (fun _ => none) s))
      "PEM" "a" = Except.error "failed" ∧
    ("failed" : String) = "failed" :=
  ⟨rfl,
   (getPublicKey_error_flow Unit (fun _ => ⟨none⟩) (fun _ => ⟨none⟩)
      (fun _ => some "pem parse error") (fun _ => none) (fun _ => none)
      (fun _ => none) "PEM" "a").2.2 "failed" rfl⟩

/-- Claim C2 counterexample: a missing or invalid public key makes
`main` log and return, so the process exits 0 — not non-zero as
claimed. -/
theorem startup_exit_nonzero_refuted :
    mainExitCode Unit Unit none (Except.error "failed") (Except.ok ())
        ListenOutcome.serves = some 0 ∧
    ¬ ∃ n, mainExitCode Unit Unit none (Except.error "failed") (Except.ok ())
        ListenOutcome.serves = some n ∧ n ≠ 0 := by
  refine ⟨rfl, ?_⟩
  rintro ⟨n, hn, hne⟩
  have h0 : (0 : Nat) = n := by simpa [mainExitCode] using hn
  exact hne h0.symm

/-- Claim C2 (amended): a failed key load and a failed consumer
creation both exit with status 0 (plain return after logging); the
process exits non-zero in exactly two cases — setupLogger panics on an
invalid LOG_LEVEL value before anything else runs (unrecovered panic,
runtime status 2), and a listener bind or serve failure exits with
status 1 via log.Fatal; with the logger set up and the listener
serving, the process does not exit on its own (there is no
graceful-shutdown path). -/
theorem startup_exit_codes (K C L : Type) (e₁ e₂ e₃ le v : String) (k : K)
    (c : C) (pr : Except String K) (cr : Except String C)
    (lo : ListenOutcome) (parse : String → Except String L) :
    mainExitCode K C (some e₃) pr cr lo = some 2 ∧
    (parse (v.toLower) = Except.error e₃ →
        mainExitCode K C (setupLoggerOutcome L (some v) parse) pr cr lo
          = some 2) ∧
    setupLoggerOutcome L none parse = none ∧
    mainExitCode K C none (Except.error e₁) cr lo = some 0 ∧
    mainExitCode K C none (Except.ok k) (Except.error e₂) lo = some 0 ∧
    mainExitCode K C none (Except.ok k) (Except.ok c)
        (ListenOutcome.errored le) = some 1 ∧
    mainExitCode K C none (Except.ok k) (Except.ok c) ListenOutcome.serves
      = none := by
  refine ⟨rfl, ?_, rfl, rfl, rfl, rfl, rfl⟩
  intro hp
  rw [setupLoggerOutcome, hp]
  rfl

/-- Witness for C2 (amended): a rejected LOG_LEVEL value makes the
process exit with status 2 through the setupLogger panic. -/
theorem startup_exit_codes_witness :
    (fun _ => (Except.error "Unknown Level String" : Except String Unit))
        (("BOGUS").toLower) = Except.error "Unknown Level String" ∧
    mainExitCode Unit Unit
        (setupLoggerOutcome Unit (some "BOGUS")
          (fun _ => Except.error "Unknown Level String"))
        (Except.ok ()) (Except.ok ()) ListenOutcome.serves = some 2 :=
  ⟨rfl,
   (startup_exit_codes Unit Unit Unit "e1" "e2" "Unknown Level String" "le"
      "BOGUS" () () (Except.ok ()) (Except.ok ()) ListenOutcome.serves
      (fun _ => Except.error "Unknown Level String")).2.1 rfl⟩

/-! ### Ingest loop: claims C3, C5 -/

/-- Claim C3 (amended): the ingest loop logs every fetch error at its
index, performs no wait action whatsoever between iterations (no
backoff of any kind), and always continues — it never terminates on a
fetch error. -/
theorem ingest_fetch_errors_logged_no_backoff (Rec : Type) (f : Fetches Rec) :
    (∀ (k : Nat) (e : String), f.errors.get? k = some e →
        IngestAction.logFetchError k e ∈ (ingestLoopStep Rec f).1) ∧
    (∀ a ∈ (ingestLoopStep Rec f).1, IngestAction.isSleep Rec a = false) ∧
    (ingestLoopStep Rec f).2 = true := by
  refine ⟨?_, ?_, rfl⟩
  · intro k e h
    have hmem := errorActions_mem Rec f.errors 0 k e h
    rw [Nat.zero_add] at hmem
    simp only [ingestLoopStep, ingestIteration]
    exact List.mem_append_left _ hmem
  · intro a ha
    simp only [ingestLoopStep, ingestIteration] at ha
    rcases List.mem_append.mp ha with hx | hx
    · exact errorActions_no_sleep Rec f.errors 0 a hx
    · exact recordActions_no_sleep Rec f.records a hx

/-- Witness for C3 (amended): a concrete fetch error is logged. -/
theorem ingest_fetch_errors_logged_no_backoff_witness :
    (⟨["boom"], [true]⟩ : Fetches Bool).errors.get? 0 = some "boom" ∧
    IngestAction.logFetchError 0 "boom"
      ∈ (ingestLoopStep Bool ⟨["boom"], [true]⟩).1 :=
  ⟨rfl,
   (ingest_fetch_errors_logged_no_backoff Bool ⟨["boom"], [true]⟩).1
      0 "boom" rfl⟩

/-- Claim C3 counterexample: an iteration whose fetch returned errors
contains no wait action at all, so there is no 250 ms, 5 s-capped
backoff before the retry; the loop just polls again. -/
theorem ingest_backoff_refuted :
    (⟨["connection refused"], []⟩ : Fetches Unit).errors ≠ [] ∧
    ((ingestLoopStep Unit ⟨["connection refused"], []⟩).1.filter
        (fun a => IngestAction.isSleep Unit a)) = [] ∧
    (ingestLoopStep Unit ⟨["connection refused"], []⟩).2 = true :=
  ⟨by simp, rfl, rfl⟩

/-- Claim C5: every fetched record is handed to the Hub
(hub.ReceiveMsg) strictly before that record is committed, and the
consumer client is created with auto-commit disabled, so commits are
explicit. -/
theorem receive_before_commit (Rec : Type) (f : Fetches Rec) (k : Nat) (r : Rec)
    (h : f.records.get? k = some r) :
    (∃ i j, i < j ∧
        (ingestIteration Rec f).get? i = some (IngestAction.receiveMsg r) ∧
        (ingestIteration Rec f).get? j = some (IngestAction.commit r)) ∧
    ∀ (brokers : List String) (group ex : String),
        KgoOpt.disableAutoCommit ∈ rangoClientOpts brokers group ex := by
  constructor
  · obtain ⟨h₁, h₂⟩ := recordActions_get Rec f.records k r h
    refine ⟨(errorActions Rec 0 f.errors).length + 2 * k,
      (errorActions Rec 0 f.errors).length + (2 * k + 1), by omega, ?_, ?_⟩
    · exact get?_append_of_get? _ _ _ _ h₁
    · exact get?_append_of_get? _ _ _ _ h₂
  · intro bs g e
    simp [rangoClientOpts]

/-- Witness for C5: for a one-record fetch the handoff lands at a
strictly smaller index than the commit. -/
theorem receive_before_commit_witness :
    (⟨[], [3]⟩ : Fetches Nat).records.get? 0 = some 3 ∧
    ((∃ i j, i < j ∧
        (ingestIteration Nat ⟨[], [3]⟩).get? i
          = some (IngestAction.receiveMsg 3) ∧
        (ingestIteration Nat ⟨[], [3]⟩).get? j
          = some (IngestAction.commit 3)) ∧
      ∀ (brokers : List String) (group ex : String),
        KgoOpt.disableAutoCommit ∈ rangoClientOpts brokers group ex) :=
  ⟨rfl, receive_before_commit Nat ⟨[], [3]⟩ 0 3 rfl⟩

/-! ### RBAC matrix: claims C10, C6 -/

/-- Claim C10: `envToMatrix` splits each record on every equals sign
and keeps only the segment between the first and the second, so for a
RANGO_RBAC_ variable whose value itself contains an equals sign the
matrix entry holds only the comma-split of the part before it — every
pattern at or after that character is silently dropped. -/
theorem envToMatrix_truncates_at_second_eq (name A B : List Char)
    (hn : '=' ∉ name) (hA : '=' ∉ A) :
    (splitOnChar '=' (rbacPfx ++ name ++ '=' :: (A ++ '=' :: B))).get? 1
      = some A ∧
    mapGet (getRBACConfig [rbacPfx ++ name ++ '=' :: (A ++ '=' :: B)])
        (lowerStr name)
      = some (splitOnChar ',' A) := by
  have hpfx : '=' ∉ rbacPfx := by decide
  have hpn : '=' ∉ rbacPfx ++ name := by
    intro hmem
    rcases List.mem_append.mp hmem with hm | hm
    · exact hpfx hm
    · exact hn hm
  have hsplit : splitOnChar '=' (rbacPfx ++ name ++ '=' :: (A ++ '=' :: B))
      = (rbacPfx ++ name) :: A :: splitOnChar '=' B := by
    rw [splitOnChar_append '=' (rbacPfx ++ name) (A ++ '=' :: B) hpn,
      splitOnChar_append '=' A B hA]
  have hkey : entryKey rbacPfx (rbacPfx ++ name ++ '=' :: (A ++ '=' :: B))
      = lowerStr name := entryKey_of_shape rbacPfx name (A ++ '=' :: B) hpfx hn
  have hval : entryVal (rbacPfx ++ name ++ '=' :: (A ++ '=' :: B))
      = splitOnChar ',' A := by
    rw [entryVal, hsplit]
    simp [List.get?]
  have hpref : rbacPfx.isPrefixOf (rbacPfx ++ name ++ '=' :: (A ++ '=' :: B))
      = true := by
    refine List.isPrefixOf_iff_prefix.mpr ⟨name ++ '=' :: (A ++ '=' :: B), by simp⟩
  have hkeep : filterPrefixed rbacPfx [rbacPfx ++ name ++ '=' :: (A ++ '=' :: B)]
      = [rbacPfx ++ name ++ '=' :: (A ++ '=' :: B)] := by
    simp [filterPrefixed, hpref]
  refine ⟨by rw [hsplit]; rfl, ?_⟩
  rw [getRBACConfig, hkeep, envToMatrix]
  show mapGet (mapSet []
      (entryKey rbacPfx (rbacPfx ++ name ++ '=' :: (A ++ '=' :: B)))
      (entryVal (rbacPfx ++ name ++ '=' :: (A ++ '=' :: B)))) (lowerStr name)
    = some (splitOnChar ',' A)
  rw [mapGet_mapSet, hkey, hval]
  simp

/-- Witness for C10: `RANGO_RBAC_TRADER=trades=x` keeps only the
pattern list of the part before the second equals sign. -/
theorem envToMatrix_truncates_at_second_eq_witness :
    ('=' ∉ ("TRADER").toList) ∧ ('=' ∉ ("trades").toList) ∧
    mapGet (getRBACConfig
        [rbacPfx ++ ("TRADER").toList
          ++ '=' :: (("trades").toList ++ '=' :: ("x").toList)])
        (lowerStr (("TRADER").toList))
      = some (splitOnChar ',' (("trades").toList)) :=
  ⟨by decide, by decide,
   (envToMatrix_truncates_at_second_eq (("TRADER").toList) (("trades").toList)
      (("x").toList) (by decide) (by decide)).2⟩

/-- Claim C6 counterexample: with `RANGO_RBAC_TRADER=trades,a=b` the
matrix entry for role trader is the comma-split of "trades,a", not of
the variable value "trades,a=b"; and two prefixed variables whose
names differ only in case collapse into a single entry, so the matrix
does not have one entry per prefixed environment variable. -/
theorem rbac_exact_value_refuted :
    mapGet (getRBACConfig [("RANGO_RBAC_TRADER=trades,a=b").toList])
        (("trader").toList)
      = some [("trades").toList, ("a").toList] ∧
    some [("trades").toList, ("a").toList]
      ≠ some [("trades").toList, ("a=b").toList] ∧
    (getRBACConfig [("RANGO_RBAC_Up=x").toList, ("RANGO_RBAC_UP=y").toList]).length
      = 1 ∧
    (1 : Nat) ≠ 2 :=
  ⟨by decide, by decide, by decide, by decide⟩

/-- Claim C6 (amended): for environment records whose RANGO_RBAC_
role names are pairwise distinct after lowercasing (otherwise the later
record overwrites the earlier, leaving a single entry), the matrix maps
the lowercased name after the marker to the comma-split of the part of
the value before its first equals sign (the whole value when it has
none), and every entry of the matrix originates from a record carrying
the RANGO_RBAC_ marker, so unprefixed variables contribute nothing. -/
theorem rbac_matrix_shape (envs : List (List Char))
    (hdist : (filterPrefixed rbacPfx envs).Pairwise
        (fun a b => entryKey rbacPfx a ≠ entryKey rbacPfx b)) :
    (∀ (name V : List Char), (rbacPfx ++ name ++ '=' :: V) ∈ envs →
        '=' ∉ name →
        mapGet (getRBACConfig envs) (lowerStr name)
          = some (splitOnChar ',' (V.takeWhile (fun a => a ≠ '=')))) ∧
    (∀ k v, mapGet (getRBACConfig envs) k = some v →
        ∃ rec, rec ∈ envs ∧ rbacPfx.isPrefixOf rec = true ∧
          k = entryKey rbacPfx rec ∧ v = entryVal rec) := by
  have hpfx : '=' ∉ rbacPfx := by decide
  constructor
  · intro name V hmem hn
    have hmemf : (rbacPfx ++ name ++ '=' :: V) ∈ filterPrefixed rbacPfx envs := by
      refine List.mem_filter.mpr ⟨hmem, ?_⟩
      simp
    have hlast := lastMatch_of_mem rbacPfx (filterPrefixed rbacPfx envs) _
      hmemf hdist
    have hkey := entryKey_of_shape rbacPfx name V hpfx hn
    have hval := entryVal_of_shape rbacPfx name V hpfx hn
    rw [getRBACConfig, envToMatrix, mapGet_envToMatrixAux]
    rw [hkey] at hlast
    rw [hlast]
    exact congrArg some hval
  · intro k v h
    rw [getRBACConfig, envToMatrix, mapGet_envToMatrixAux] at h
    cases hlm : lastMatch rbacPfx (filterPrefixed rbacPfx envs) k with
    | none =>
      rw [hlm] at h
      simp [mapGet] at h
    | some w =>
      rw [hlm] at h
      have hw : w = v := by simpa using h
      subst hw
      obtain ⟨rec, hrecf, hk, hv⟩ := lastMatch_some rbacPfx _ k w hlm
      have hsplitmem : rec ∈ envs ∧ rbacPfx <+: rec := by
        simpa [filterPrefixed] using hrecf
      exact ⟨rec, hsplitmem.1, List.isPrefixOf_iff_prefix.mpr hsplitmem.2,
        hk.symm, hv.symm⟩

/-- Witness for C6 (amended): `RANGO_RBAC_TRADER=trades,order` yields
the entry trader with patterns trades and order. -/
theorem rbac_matrix_shape_witness :
    mapGet (getRBACConfig [("RANGO_RBAC_TRADER=trades,order").toList])
        (("trader").toList)
      = some [("trades").toList, ("order").toList] := by
  have h := (rbac_matrix_shape [("RANGO_RBAC_TRADER=trades,order").toList]
      (by decide)).1 (("TRADER").toList) (("trades,order").toList)
      (by decide) (by decide)
  exact h

end Rango
